import Mathlib

/-!
Verification of the runic tokenizer-engine library.

The development shallowly embeds the Rust sources:
  * span.rs    : Span, location_to_line_col
  * lexer.rs   : Lexer (cursor), LexerRule, Lexer::get_token, SkipWhitespaceRule,
                 the match_string! rule family
  * error.rs   : Error::display (rendered lines modeled as lists of characters)

Modeling conventions:
  * Rust panics (assertion failures, usize underflow, out-of-bounds slicing,
    unwrap on None) are modeled by an Option result, with none standing for a
    panic.  usize subtraction is modeled by a checked subtraction.
  * The lexer cursor works on the source as a list of characters; position
    counts characters (byte offsets coincide on single-byte text, and the spec
    treats offsets inside a multi-byte character as a precondition violation).
  * location_to_line_col is modeled byte-faithfully: the scan enumerates each
    character together with its UTF-8 byte offset, exactly as the Rust
    char_indices iterator does.
  * Rules receive the mutable cursor and return the possibly mutated cursor
    next to their Result value; the rule list itself is read-only during a
    dispatch pass and is passed to get_token separately.
-/

namespace Runic

/-- A byte span, half-open.  Field names follow span.rs (start, end). -/
structure Span where
  start : Nat
  stop : Nat
  deriving DecidableEq, Repr

/-- Span::new from span.rs: asserts start < end; the assertion failure is
modeled by none. -/
def Span.new (start stop : Nat) : Option Span :=
  if start < stop then some { start := start, stop := stop } else none

/-- A token: an opaque kind tag plus the span it covers (lexer.rs uses the
two-field Token constructor). -/
structure Token (T : Type) where
  kind : T
  span : Span
  deriving DecidableEq, Repr

/-- The lexer cursor state from lexer.rs: the source code, the current
position and the character at that position. -/
structure Lexer where
  source : List Char
  position : Nat
  current_char : Option Char
  deriving DecidableEq, Repr

/-- Lexer::new from lexer.rs: position 0; current_char is the first character
when the source is non-empty, none otherwise. -/
def Lexer.new (source : List Char) : Lexer :=
  if 0 < source.length then
    { source := source, position := 0, current_char := source.head? }
  else
    { source := source, position := 0, current_char := none }

/-- Lexer::advance from lexer.rs.  The guard is position < len - 1 on usize:
on an empty source the subtraction underflows (debug panic / out-of-bounds
slice in release), modeled by none.  In the else branch only current_char is
cleared; position is left unchanged. -/
def Lexer.advance (st : Lexer) : Option Lexer :=
  if st.source.length = 0 then
    none
  else if st.position < st.source.length - 1 then
    match (st.source.drop (st.position + 1)).head? with
    | some c => some { st with position := st.position + 1, current_char := some c }
    | none => none
  else
    some { st with current_char := none }

/-- Lexer::jump_to from lexer.rs: in-bounds targets reposition the cursor;
out-of-bounds targets set position to len + 1 with current_char none. -/
def Lexer.jump_to (st : Lexer) (position : Nat) : Lexer :=
  if position < st.source.length then
    { st with position := position, current_char := (st.source.drop position).head? }
  else
    { st with position := st.source.length + 1, current_char := none }

/-- The LexerRule trait from lexer.rs.  run models get_token on the rule: it
receives the cursor, and returns the Result together with the cursor it leaves
behind (none models a panic inside the rule).  generates_token defaults to
true as in the trait. -/
structure LexerRule (T E : Type) where
  run : Lexer → Option (Except E (Option (Token T)) × Lexer)
  generates_token : Bool := true

/-- Lexer::get_token from lexer.rs: try each rule in list order, recording the
position before the attempt; a token or an error returns immediately; a
consuming rule that produced nothing has the cursor restored by jump_to; a
non-consuming rule keeps whatever the rule did to the cursor. -/
def get_token {T E : Type} : List (LexerRule T E) → Lexer → Option (Except E (Option (Token T)) × Lexer)
  | [], st => some (.ok none, st)
  | r :: rest, st =>
    let prev := st.position
    match r.run st with
    | none => none
    | some (.error e, st') => some (.error e, st')
    | some (.ok (some tok), st') => some (.ok (some tok), st')
    | some (.ok none, st') =>
      if r.generates_token then get_token rest (st'.jump_to prev)
      else get_token rest st'

/-- The while-let loop of SkipWhitespaceRule (lexer.rs): advance while the
current character is whitespace.  The loop always terminates because advance
either increases position (bounded by the source length) or clears
current_char; the fuel counter source.length + 2 used below therefore always
suffices, and exhausted fuel is unreachable. -/
def skipWhitespaceLoop : Nat → Lexer → Option Lexer
  | 0, _ => none
  | fuel + 1, st =>
    match st.current_char with
    | some c =>
      if c.isWhitespace then
        match st.advance with
        | some st' => skipWhitespaceLoop fuel st'
        | none => none
      else some st
    | none => some st

/-- SkipWhitespaceRule from lexer.rs: skips whitespace, always returns Ok(None),
and is non-consuming (generates_token = false). -/
def SkipWhitespaceRule {T E : Type} : LexerRule T E where
  run st :=
    match skipWhitespaceLoop (st.source.length + 2) st with
    | some st' => some (.ok none, st')
    | none => none
  generates_token := false

/-- The for-loop of the match_string! macro (lexer.rs): compare each character
of the literal against current_char, advancing on success and stopping with
matched = false on the first mismatch. -/
def matchStringLoop : List Char → Lexer → Option (Bool × Lexer)
  | [], st => some (true, st)
  | c :: cs, st =>
    if st.current_char = some c then
      match st.advance with
      | some st' => matchStringLoop cs st'
      | none => none
    else some (false, st)

/-- A rule produced by the match_string! macro (lexer.rs): on a full match it
returns a token whose span runs from the recorded start position to the
position after the match; otherwise Ok(None).  Span::new can panic
(modeled by none). -/
def matchStringRule {T E : Type} (str : String) (value : T) : LexerRule T E where
  run st :=
    let start_pos := st.position
    match matchStringLoop str.toList st with
    | some (true, st') =>
      match Span.new start_pos st'.position with
      | some sp => some (.ok (some { kind := value, span := sp }), st')
      | none => none
    | some (false, st') => some (.ok none, st')
    | none => none

/-- The UTF-8 byte length of a character sequence (str::len in Rust). -/
def utf8Len (s : List Char) : Nat := (s.map Char.utf8Size).sum

/-- The char_indices iterator of Rust: each character paired with its starting
byte offset, starting from offset i0. -/
def charIndicesAux : List Char → Nat → List (Nat × Char)
  | [], _ => []
  | c :: cs, i0 => (i0, c) :: charIndicesAux cs (i0 + c.utf8Size)

/-- source.char_indices() from offset 0. -/
def char_indices (s : List Char) : List (Nat × Char) := charIndicesAux s 0

/-- The scanning loop of location_to_line_col (span.rs): break once the
enumerated byte offset equals the target index; a newline increments the line
and resets the column to 1; any other character increments the column. -/
def locLoop : List (Nat × Char) → Nat → Nat → Nat → Nat × Nat
  | [], _, line, col => (line, col)
  | (i, c) :: rest, index, line, col =>
    if i = index then (line, col)
    else if c = '\n' then locLoop rest index (line + 1) 1
    else locLoop rest index line (col + 1)

/-- location_to_line_col from span.rs: 1-based line and column of the byte
offset index. -/
def location_to_line_col (source : List Char) (index : Nat) : Nat × Nat :=
  locLoop (char_indices source) index 1 1

/-- One step of the scan as the specification words it: a newline increments
the line and resets the column to 1, every other character increments the
column.  Used to state what the scan accumulates. -/
def lineColStep (acc : Nat × Nat) (c : Char) : Nat × Nat :=
  if c = '\n' then (acc.1 + 1, 1) else (acc.1, acc.2 + 1)

/-- Checked usize subtraction: none models the debug-mode underflow panic. -/
def usizeSub (a b : Nat) : Option Nat :=
  if b ≤ a then some (a - b) else none

/-- Split a character list at every newline (n newlines give n + 1 pieces). -/
def splitNl : List Char → List (List Char)
  | [] => [[]]
  | c :: cs =>
    if c = '\n' then [] :: splitNl cs
    else
      match splitNl cs with
      | [] => [[c]]
      | l :: ls => (c :: l) :: ls

/-- Drop one trailing carriage return, as Rust str::lines does per line. -/
def stripCr (l : List Char) : List Char :=
  if l.getLast? = some '\r' then l.dropLast else l

/-- Rust str::lines: split on newlines, a terminal newline produces no extra
empty line, the empty string has no lines, and a trailing carriage return is
removed from each line. -/
def rustLines (s : List Char) : List (List Char) :=
  if s = [] then []
  else
    let parts := splitNl s
    let parts := if s.getLast? = some '\n' then parts.dropLast else parts
    parts.map stripCr

/-- Decimal representation of a line number as characters
(line_number.to_string() in error.rs). -/
def reprL (k : Nat) : List Char := (Nat.repr k).toList

/-- A run of spaces (" ".repeat in error.rs). -/
def spaces (k : Nat) : List Char := List.replicate k ' '

/-- A run of caret characters ("^".repeat in error.rs). -/
def carets (k : Nat) : List Char := List.replicate k '^'

/-- The location line of Error::display: file:line:col for a point span,
file:line:startCol-endCol on one line, file:startLine:startCol-endLine:endCol
across lines. -/
def locationLine (n : Nat) (filename : List Char) (sl sc el ec : Nat) : List Char :=
  if sl = el then
    if sc = ec then
      spaces n ++ "--> ".toList ++ filename ++ [':'] ++ reprL sl ++ [':'] ++ reprL sc
    else
      spaces n ++ "--> ".toList ++ filename ++ [':'] ++ reprL sl ++ [':'] ++ reprL sc
        ++ ['-'] ++ reprL ec
  else
    spaces n ++ "--> ".toList ++ filename ++ [':'] ++ reprL sl ++ [':'] ++ reprL sc
      ++ ['-'] ++ reprL el ++ [':'] ++ reprL ec

/-- The blank gutter separator line of Error::display. -/
def gutterSep (n : Nat) : List Char := spaces n ++ [' ', '|']

/-- A rendered source-text line of Error::display: right-aligned line number,
gutter bar, the line itself. -/
def textLineOut (line_number pad : Nat) (line : List Char) : List Char :=
  reprL line_number ++ spaces pad ++ [' ', '|', ' '] ++ line

/-- An underline line of Error::display: gutter spaces, the bar, the
indentation spaces, then the caret run. -/
def underlineOut (n ind ccount : Nat) : List Char :=
  spaces n ++ [' ', '|', ' '] ++ spaces ind ++ carets ccount

/-- An underline line of Error::display that starts at the left margin
(the last-line and interior-line cases). -/
def marginUnderlineOut (n ccount : Nat) : List Char :=
  spaces n ++ [' ', '|', ' '] ++ carets ccount

/-- One iteration of the rendering loop of Error::display for the line at
line_index li: the text line followed by its underline.  The four cases
(single-line span, first line, last line, interior line) and every usize
subtraction follow error.rs; none models a panic. -/
def renderLine (n sl el sc ec : Nat) (li : Nat) (line : List Char) : Option (List (List Char)) :=
  let line_number := sl + li
  match usizeSub n (reprL line_number).length with
  | none => none
  | some pad =>
    if line_number = sl ∧ line_number = el then
      match usizeSub sc 1, usizeSub ec sc with
      | some ind, some d =>
        some [textLineOut line_number pad line, underlineOut n ind (d + 1)]
      | _, _ => none
    else if line_number = sl then
      match usizeSub sc 1, usizeSub (utf8Len line) sc with
      | some ind, some d =>
        some [textLineOut line_number pad line, underlineOut n ind (d + 1)]
      | _, _ => none
    else if line_number = el then
      some [textLineOut line_number pad line, marginUnderlineOut n (ec + 1)]
    else
      some [textLineOut line_number pad line, marginUnderlineOut n (utf8Len line)]

/-- The rendering loop of Error::display over the sliced lines, carrying the
enumeration counter li. -/
def renderAll (n sl el sc ec : Nat) : Nat → List (List Char) → Option (List (List Char))
  | _, [] => some []
  | li, line :: rest =>
    match renderLine n sl el sc ec li line with
    | none => none
    | some block =>
      match renderAll n sl el sc ec (li + 1) rest with
      | none => none
      | some out => some (block ++ out)

/-- The trailing context/notes section of Error::display: a gutter separator
when any context or note exists, then each context line and each note line. -/
def displayTail (n : Nat) (context notes : List (List Char)) : List (List Char) :=
  (if context = [] ∧ notes = [] then [] else [gutterSep n]) ++
  context.map (fun c => spaces n ++ [' ', '=', ' '] ++ c) ++
  notes.map (fun c => spaces n ++ [' ', '=', ' '] ++ "note: ".toList ++ c)

/-- The Error struct of error.rs; rendered output lines are lists of
characters (ANSI color codes are presentation only and are omitted). -/
structure ErrorS where
  message : List Char
  filename : List Char
  code : List Char
  span : Span
  context : List (List Char)
  notes : List (List Char)

/-- Error::display from error.rs, returning the printed lines in order:
header, location line, gutter separator, per-line text and underline pairs,
then context and notes.  none models a panic (usize underflow). -/
def ErrorS.display (e : ErrorS) : Option (List (List Char)) :=
  let p1 := location_to_line_col e.code e.span.start
  let p2 := location_to_line_col e.code e.span.stop
  match usizeSub p2.2 1 with
  | none => none
  | some ec =>
    let n := (reprL (max p1.1 p2.1)).length
    let header := "error: ".toList ++ e.message
    let locl := locationLine n e.filename p1.1 p1.2 p2.1 ec
    match usizeSub p1.1 1, usizeSub p2.1 p1.1 with
    | some sl1, some d =>
      let sliced := ((rustLines e.code).drop sl1).take (d + 1)
      match renderAll n p1.1 p2.1 p1.2 ec 0 sliced with
      | none => none
      | some body => some ([header, locl, gutterSep n] ++ body ++ displayTail n e.context e.notes)
    | _, _ => none

/-- Cursor consistency invariant (spec section 3): current_char is none iff
position is at or past the end of the source, and otherwise it is the
character starting at position. -/
def cursorConsistent (st : Lexer) : Prop :=
  st.current_char =
    if st.position < st.source.length then (st.source.drop st.position).head? else none

instance (st : Lexer) : Decidable (cursorConsistent st) := by
  unfold cursorConsistent
  infer_instance

/-- A sample rule for the error-propagation claim: it advances once and then
fails with an error, leaving the cursor wherever the advance put it. -/
def failingRule {T : Type} (msg : String) : LexerRule T String where
  run st :=
    match st.advance with
    | some st' => some (.error msg, st')
    | none => none

/-- C1: get_token tries the rules in list order; as soon as a rule returns a
token, that token is returned immediately with the cursor wherever the rule
left it, independently of every later rule; in particular with two rules both
matching at the same position the first rule's token is the result. -/
theorem runic_c1 {T E : Type} :
    (∀ (r : LexerRule T E) (rest : List (LexerRule T E)) (st st' : Lexer) (tok : Token T),
       r.run st = some (.ok (some tok), st') →
       get_token (r :: rest) st = some (.ok (some tok), st')) ∧
    (∀ (a b : LexerRule T E) (st sta stb : Lexer) (ta tb : Token T),
       a.run st = some (.ok (some ta), sta) →
       b.run st = some (.ok (some tb), stb) →
       get_token [a, b] st = some (.ok (some ta), sta)) := by
  constructor
  · intro r rest st st' tok h
    simp [get_token, h]
  · intro a b st sta stb ta tb ha hb
    simp [get_token, ha]

/-- Witness for C1: on the source "let x" a rule matching "let" and a rule
matching "l" both produce a token at position 0; get_token returns the first
rule's token with the cursor just past "let". -/
theorem runic_c1_witness :
    ((matchStringRule (T := String) (E := Unit) "let" "LET").run (Lexer.new "let x".toList)
       = some (.ok (some { kind := "LET", span := { start := 0, stop := 3 } }),
               { source := "let x".toList, position := 3, current_char := some ' ' }) ∧
     (matchStringRule (T := String) (E := Unit) "l" "L").run (Lexer.new "let x".toList)
       = some (.ok (some { kind := "L", span := { start := 0, stop := 1 } }),
               { source := "let x".toList, position := 1, current_char := some 'e' })) ∧
    get_token (E := Unit) [matchStringRule "let" "LET", matchStringRule "l" "L"] (Lexer.new "let x".toList)
      = some (.ok (some { kind := "LET", span := { start := 0, stop := 3 } }),
              { source := "let x".toList, position := 3, current_char := some ' ' }) :=
  ⟨⟨rfl, rfl⟩, runic_c1.2 _ _ _ _ _ _ _ rfl rfl⟩

/-- C2 (amended): when a consuming rule yields no token and no error, the
engine continues with the next rules from jump_to of the recorded position;
this restores the exact position whenever the recorded position is strictly
inside the source (jump_to clamps out-of-bounds targets to length + 1
instead). -/
theorem runic_c2 {T E : Type} (r : LexerRule T E) (rest : List (LexerRule T E))
    (st st' : Lexer)
    (hcons : r.generates_token = true)
    (h : r.run st = some (.ok none, st'))
    (hsrc : st'.source = st.source)
    (hin : st.position < st.source.length) :
    get_token (r :: rest) st = get_token rest (st'.jump_to st.position) ∧
    (st'.jump_to st.position).position = st.position := by
  refine ⟨by simp [get_token, h, hcons], ?_⟩
  unfold Lexer.jump_to
  rw [hsrc, if_pos hin]

/-- C2 counterexample: on the empty source the recorded position 0 is already
at the end of the text, and the restoring jump_to clamps it to length + 1 = 1;
a consuming rule that yields no token therefore leaves the cursor at
position 1, not at the recorded position 0. -/
theorem runic_c2_counterexample :
    (Lexer.new ([] : List Char)).position = 0 ∧
    get_token (E := Unit) [matchStringRule "x" "X"] (Lexer.new ([] : List Char))
      = some (.ok none, { source := [], position := 1, current_char := none }) :=
  ⟨rfl, rfl⟩

/-- Witness for C2: on "let x" the consuming rule for "lex" matches two
characters speculatively and then fails; the recorded position 0 is in bounds
and the cursor is restored to it before the next rule runs. -/
theorem runic_c2_witness :
    ((matchStringRule (T := String) (E := Unit) "lex" "LEX").generates_token = true ∧
     (matchStringRule (T := String) (E := Unit) "lex" "LEX").run (Lexer.new "let x".toList)
       = some (.ok none, { source := "let x".toList, position := 2, current_char := some 't' }) ∧
     (Lexer.new "let x".toList).position < (Lexer.new "let x".toList).source.length) ∧
    (get_token (E := Unit) [matchStringRule "lex" "LEX", matchStringRule "let" "LET"] (Lexer.new "let x".toList)
       = get_token (E := Unit) [matchStringRule "let" "LET"]
           (({ source := "let x".toList, position := 2, current_char := some 't' } : Lexer).jump_to
             (Lexer.new "let x".toList).position) ∧
     (({ source := "let x".toList, position := 2, current_char := some 't' } : Lexer).jump_to
         (Lexer.new "let x".toList).position).position = (Lexer.new "let x".toList).position) :=
  ⟨⟨rfl, rfl, by decide⟩, runic_c2 _ _ _ _ rfl rfl rfl (by decide)⟩

/-- C3: when a non-consuming rule yields no token, the cursor is not restored
and the next rule starts from whatever the rule left behind; concretely, with
the whitespace-skipping rule followed by a rule matching "let" on the input
"   let x", the whitespace is consumed and the match rule succeeds from
position 3, producing the token with span 3..6 and leaving the cursor at 6. -/
theorem runic_c3 :
    (∀ {T E : Type} (r : LexerRule T E) (rest : List (LexerRule T E)) (st st' : Lexer),
       r.generates_token = false →
       r.run st = some (.ok none, st') →
       get_token (r :: rest) st = get_token rest st') ∧
    get_token (E := Unit) [SkipWhitespaceRule, matchStringRule "let" "let"]
        (Lexer.new "   let x".toList)
      = some (.ok (some { kind := "let", span := { start := 3, stop := 6 } }),
              { source := "   let x".toList, position := 6, current_char := some ' ' }) := by
  constructor
  · intro T E r rest st st' hns h
    simp [get_token, h, hns]
  · rfl

/-- Witness for C3: the skip-whitespace rule on "   let x" yields no token but
moves the cursor to position 3, and get_token continues from exactly that
state. -/
theorem runic_c3_witness :
    ((SkipWhitespaceRule (T := String) (E := Unit)).generates_token = false ∧
     (SkipWhitespaceRule (T := String) (E := Unit)).run (Lexer.new "   let x".toList)
       = some (.ok none, { source := "   let x".toList, position := 3, current_char := some 'l' })) ∧
    get_token (E := Unit) [SkipWhitespaceRule, matchStringRule "let" "let"] (Lexer.new "   let x".toList)
      = get_token (E := Unit) [matchStringRule "let" "let"]
          ({ source := "   let x".toList, position := 3, current_char := some 'l' } : Lexer) :=
  ⟨⟨rfl, rfl⟩, runic_c3.1 _ _ _ _ rfl rfl⟩

/-- C4: a rule error aborts get_token immediately: the same error value is
returned, no later rule is consulted, and the cursor is exactly the one the
failing rule left behind (no restoration). -/
theorem runic_c4 {T E : Type} (r : LexerRule T E) (rest : List (LexerRule T E))
    (st st' : Lexer) (e : E)
    (h : r.run st = some (.error e, st')) :
    get_token (r :: rest) st = some (.error e, st') := by
  simp [get_token, h]

/-- Witness for C4: a rule that advances once and then errors on "ab" makes
get_token return that error with the cursor at the advanced position 1, even
though a rule matching "a" follows in the list. -/
theorem runic_c4_witness :
    (failingRule (T := String) "boom").run (Lexer.new "ab".toList)
      = some (.error "boom", { source := "ab".toList, position := 1, current_char := some 'b' }) ∧
    get_token [failingRule "boom", matchStringRule "a" "A"] (Lexer.new "ab".toList)
      = some (.error "boom", { source := "ab".toList, position := 1, current_char := some 'b' }) :=
  ⟨rfl, runic_c4 _ _ _ _ _ rfl⟩

/-- C5 (amended): the cursor consistency invariant holds after Lexer::new and
after every jump_to, and it holds after advance provided the cursor was not at
the last character (position + 1 < length); advance at the last character
clears current_char while leaving position strictly below the length, which
breaks the invariant. -/
theorem runic_c5 :
    (∀ source : List Char, cursorConsistent (Lexer.new source)) ∧
    (∀ (st : Lexer) (p : Nat), cursorConsistent (st.jump_to p)) ∧
    (∀ st st' : Lexer, st.position + 1 < st.source.length →
       st.advance = some st' → cursorConsistent st') := by
  refine ⟨?_, ?_, ?_⟩
  · intro s
    unfold Lexer.new cursorConsistent
    by_cases h : 0 < s.length
    · rw [if_pos h]
      simp [h]
    · rw [if_neg h]
      simp at h
      simp [h]
  · intro st p
    unfold Lexer.jump_to cursorConsistent
    by_cases h : p < st.source.length
    · rw [if_pos h]
      simp [h]
    · rw [if_neg h]
      simp
  · intro st st' h hadv
    have h0 : ¬ st.source.length = 0 := by omega
    have h1 : st.position < st.source.length - 1 := by omega
    unfold Lexer.advance at hadv
    rw [if_neg h0, if_pos h1] at hadv
    cases hh : (st.source.drop (st.position + 1)).head? with
    | none =>
      rw [hh] at hadv
      cases hadv
    | some c =>
      rw [hh] at hadv
      have hst : { st with position := st.position + 1, current_char := some c } = st' :=
        Option.some.inj hadv
      subst hst
      unfold cursorConsistent
      simp only
      rw [if_pos h]
      exact hh.symm

/-- C5 counterexample: on the one-character source "a", advance at the last
character yields current_char none while position stays at 0, strictly below
the length 1, so the claimed iff fails after this advance. -/
theorem runic_c5_counterexample :
    (Lexer.new ['a']).advance = some { source := ['a'], position := 0, current_char := none } ∧
    ¬ cursorConsistent { source := ['a'], position := 0, current_char := none } :=
  ⟨rfl, by decide⟩

/-- Witness for C5: concrete consistency facts on the source "ab" obtained
from the three parts of the amended theorem. -/
theorem runic_c5_witness :
    cursorConsistent (Lexer.new "ab".toList) ∧
    cursorConsistent ((Lexer.new "ab".toList).jump_to 1) ∧
    ((Lexer.new "ab".toList).position + 1 < (Lexer.new "ab".toList).source.length ∧
     (Lexer.new "ab".toList).advance
       = some { source := "ab".toList, position := 1, current_char := some 'b' } ∧
     cursorConsistent { source := "ab".toList, position := 1, current_char := some 'b' }) :=
  ⟨runic_c5.1 _, runic_c5.2.1 _ _,
   by decide, rfl, runic_c5.2.2 (Lexer.new "ab".toList) _ (by decide) rfl⟩

/-- C6 (amended): advance moves position p to p + 1 with the character there
whenever p + 1 is still inside the source; at or beyond the last character of
a non-empty source it only clears current_char, leaving position unchanged
(so a fully consumed cursor ends at length - 1, not length); and on an empty
source the usize subtraction length - 1 underflows, modeled as a panic. -/
theorem runic_c6 :
    (∀ st : Lexer, st.position + 1 < st.source.length →
       st.advance = some { st with position := st.position + 1,
                                   current_char := (st.source.drop (st.position + 1)).head? }) ∧
    (∀ st : Lexer, 0 < st.source.length → st.source.length ≤ st.position + 1 →
       st.advance = some { st with current_char := none }) ∧
    (∀ st : Lexer, st.source.length = 0 → st.advance = none) := by
  refine ⟨?_, ?_, ?_⟩
  · intro st h
    have h0 : ¬ st.source.length = 0 := by omega
    have h1 : st.position < st.source.length - 1 := by omega
    unfold Lexer.advance
    rw [if_neg h0, if_pos h1]
    cases hh : (st.source.drop (st.position + 1)).head? with
    | none =>
      exfalso
      rw [List.head?_eq_none_iff, List.drop_eq_nil_iff] at hh
      omega
    | some c => rfl
  · intro st h0 h1
    have hne : ¬ st.source.length = 0 := by omega
    have hge : ¬ st.position < st.source.length - 1 := by omega
    unfold Lexer.advance
    rw [if_neg hne, if_neg hge]
  · intro st h
    unfold Lexer.advance
    rw [if_pos h]

/-- C6 counterexample: on the source "a" the cursor starts at the last
character; advance leaves position at 0 while the length is 1, so the cursor
does not end at position == length; and on the empty source advance panics
from the underflowing subtraction instead of completing. -/
theorem runic_c6_counterexample :
    (Lexer.new ['a']).advance = some { source := ['a'], position := 0, current_char := none } ∧
    List.length ['a'] = 1 ∧
    (Lexer.new ([] : List Char)).advance = none :=
  ⟨rfl, rfl, rfl⟩

/-- Witness for C6: the three branches of the amended advance contract at
concrete cursors. -/
theorem runic_c6_witness :
    ((Lexer.new "ab".toList).position + 1 < (Lexer.new "ab".toList).source.length ∧
     (Lexer.new "ab".toList).advance
       = some { source := "ab".toList, position := 1, current_char := some 'b' }) ∧
    ((Lexer.new ['a']).advance = some { source := ['a'], position := 0, current_char := none }) ∧
    (Lexer.new ([] : List Char)).advance = none :=
  ⟨⟨by decide, (runic_c6.1 (Lexer.new "ab".toList) (by decide)).trans rfl⟩,
   (runic_c6.2.1 (Lexer.new ['a']) (by decide) (by decide)).trans rfl,
   runic_c6.2.2 _ rfl⟩

/-- C9: Span::new returns exactly the given endpoints when start < end, and
stops execution (assertion failure, modeled as none) when start >= end; under
the precondition start < end the failure branch is unreachable. -/
theorem runic_c9 (start stop : Nat) :
    (start < stop → Span.new start stop = some { start := start, stop := stop }) ∧
    (stop ≤ start → Span.new start stop = none) := by
  constructor
  · intro h
    unfold Span.new
    rw [if_pos h]
  · intro h
    unfold Span.new
    rw [if_neg (by omega)]

/-- Witness for C9: Span::new 2 5 succeeds with exactly those endpoints and
Span::new 5 5 fails the assertion. -/
theorem runic_c9_witness :
    ((2 : Nat) < 5 ∧ Span.new 2 5 = some { start := 2, stop := 5 }) ∧
    ((5 : Nat) ≤ 5 ∧ Span.new 5 5 = none) :=
  ⟨⟨by decide, (runic_c9 2 5).1 (by decide)⟩, ⟨by decide, (runic_c9 5 5).2 (by decide)⟩⟩

theorem utf8Len_nil : utf8Len [] = 0 := rfl

theorem utf8Len_cons (c : Char) (cs : List Char) :
    utf8Len (c :: cs) = c.utf8Size + utf8Len cs := by
  simp [utf8Len]

theorem charIndicesAux_cons (c : Char) (cs : List Char) (i0 : Nat) :
    charIndicesAux (c :: cs) i0 = (i0, c) :: charIndicesAux cs (i0 + c.utf8Size) := rfl

theorem locLoop_cons (i : Nat) (c : Char) (rest : List (Nat × Char)) (index line col : Nat) :
    locLoop ((i, c) :: rest) index line col =
      if i = index then (line, col)
      else if c = '\n' then locLoop rest index (line + 1) 1
      else locLoop rest index line (col + 1) := rfl

theorem lineColStep_nl (acc : Nat × Nat) (c : Char) (h : c = '\n') :
    lineColStep acc c = (acc.1 + 1, 1) := by
  simp [lineColStep, h]

theorem lineColStep_other (acc : Nat × Nat) (c : Char) (h : ¬ c = '\n') :
    lineColStep acc c = (acc.1, acc.2 + 1) := by
  simp [lineColStep, h]

/-- The scan of location_to_line_col targeted at the byte offset of the n-th
character boundary processes exactly the first n characters. -/
theorem locLoop_take (s : List Char) :
    ∀ (n i0 line col : Nat), n ≤ s.length →
      locLoop (charIndicesAux s i0) (i0 + utf8Len (List.take n s)) line col =
        List.foldl lineColStep (line, col) (List.take n s) := by
  induction s with
  | nil =>
    intro n i0 line col hn
    simp only [List.length_nil, Nat.le_zero] at hn
    subst hn
    rfl
  | cons c cs ih =>
    intro n i0 line col hn
    cases n with
    | zero =>
      rw [List.take_zero, utf8Len_nil, Nat.add_zero, charIndicesAux_cons, locLoop_cons,
        if_pos rfl, List.foldl_nil]
    | succ m =>
      have hm : m ≤ cs.length := by simpa using hn
      have hpos : 0 < c.utf8Size := Char.utf8Size_pos c
      rw [List.take_succ_cons, utf8Len_cons, charIndicesAux_cons, locLoop_cons,
        if_neg (by omega), List.foldl_cons]
      by_cases hc : c = '\n'
      · rw [if_pos hc, lineColStep_nl _ _ hc, ← Nat.add_assoc]
        exact ih m (i0 + c.utf8Size) (line + 1) 1 hm
      · rw [if_neg hc, lineColStep_other _ _ hc, ← Nat.add_assoc]
        exact ih m (i0 + c.utf8Size) line (col + 1) hm

theorem charIndicesAux_map_snd (s : List Char) :
    ∀ i0, (charIndicesAux s i0).map Prod.snd = s := by
  induction s with
  | nil => intro i0; rfl
  | cons c cs ih =>
    intro i0
    rw [charIndicesAux_cons, List.map_cons, ih]

theorem charIndicesAux_fst_lt (s : List Char) :
    ∀ i0 x, x ∈ (charIndicesAux s i0).map Prod.fst → x < i0 + utf8Len s := by
  induction s with
  | nil => intro i0 x h; simp [charIndicesAux] at h
  | cons c cs ih =>
    intro i0 x h
    have hpos : 0 < c.utf8Size := Char.utf8Size_pos c
    rw [charIndicesAux_cons, List.map_cons, List.mem_cons] at h
    rw [utf8Len_cons]
    rcases h with h | h
    · omega
    · have := ih (i0 + c.utf8Size) x h
      omega

/-- When the target offset is never hit, the scan consumes every character. -/
theorem locLoop_no_break :
    ∀ (entries : List (Nat × Char)) (index line col : Nat),
      index ∉ entries.map Prod.fst →
      locLoop entries index line col =
        List.foldl lineColStep (line, col) (entries.map Prod.snd) := by
  intro entries
  induction entries with
  | nil => intro index line col _; rfl
  | cons p rest ih =>
    intro index line col h
    obtain ⟨i, c⟩ := p
    rw [List.map_cons, List.mem_cons] at h
    push_neg at h
    rw [locLoop_cons, if_neg (fun he => h.1 he.symm), List.map_cons, List.foldl_cons]
    by_cases hc : c = '\n'
    · rw [if_pos hc, lineColStep_nl _ _ hc]
      exact ih index (line + 1) 1 h.2
    · rw [if_neg hc, lineColStep_other _ _ hc]
      exact ih index line (col + 1) h.2

/-- C7: location_to_line_col scans from the start of the text and stops at
the target offset without counting the character there; what it returns is
the (1, 1)-based accumulation of the step that increments the line and resets
the column on a newline and increments the column on any other character;
for the text "Hello newline World" the offsets 0, 5, 6 and 10 give (1,1),
(1,6), (2,1) and (2,5). -/
theorem runic_c7 :
    (∀ (s : List Char) (n : Nat), n ≤ s.length →
       location_to_line_col s (utf8Len (List.take n s)) =
         List.foldl lineColStep (1, 1) (List.take n s)) ∧
    location_to_line_col "Hello\nWorld".toList 0 = (1, 1) ∧
    location_to_line_col "Hello\nWorld".toList 5 = (1, 6) ∧
    location_to_line_col "Hello\nWorld".toList 6 = (2, 1) ∧
    location_to_line_col "Hello\nWorld".toList 10 = (2, 5) := by
  refine ⟨?_, by decide, by decide, by decide, by decide⟩
  intro s n hn
  have h := locLoop_take s n 0 1 1 hn
  rw [Nat.zero_add] at h
  exact h

/-- Witness for C7: the boundary characterization instantiated at offset 6 of
"Hello newline World" (the boundary after the first six characters). -/
theorem runic_c7_witness :
    (6 : Nat) ≤ "Hello\nWorld".toList.length ∧
    location_to_line_col "Hello\nWorld".toList (utf8Len (List.take 6 "Hello\nWorld".toList)) =
      List.foldl lineColStep (1, 1) (List.take 6 "Hello\nWorld".toList) :=
  ⟨by decide, runic_c7.1 _ 6 (by decide)⟩

/-- C10: location_to_line_col is total; for an index at or past the byte
length of the text, or an index that is not the starting byte of any
character, the scan never breaks early: it consumes the entire text and
returns the accumulated line and column, with no out-of-bounds access. -/
theorem runic_c10 (s : List Char) (index : Nat)
    (h : utf8Len s ≤ index ∨ index ∉ (char_indices s).map Prod.fst) :
    location_to_line_col s index = List.foldl lineColStep (1, 1) s := by
  have hnot : index ∉ (char_indices s).map Prod.fst := by
    rcases h with h | h
    · intro hmem
      have hlt := charIndicesAux_fst_lt s 0 index hmem
      omega
    · exact h
  have hmain := locLoop_no_break (char_indices s) index 1 1 hnot
  rw [location_to_line_col, hmain]
  rw [show char_indices s = charIndicesAux s 0 from rfl, charIndicesAux_map_snd]

/-- Witness for C10: in the two-character text with a two-byte first
character, byte offset 1 falls inside that character and is the starting
byte of none; the scan consumes the whole text. -/
theorem runic_c10_witness :
    (utf8Len "éa".toList ≤ 1 ∨ (1 : Nat) ∉ (char_indices "éa".toList).map Prod.fst) ∧
    location_to_line_col "éa".toList 1 = List.foldl lineColStep (1, 1) "éa".toList :=
  ⟨Or.inr (by decide), runic_c10 _ 1 (Or.inr (by decide))⟩

theorem usizeSub_eq_some {a b : Nat} (h : b ≤ a) : usizeSub a b = some (a - b) := by
  unfold usizeSub
  rw [if_pos h]

theorem usizeSub_eq_some_iff {a b c : Nat} : usizeSub a b = some c ↔ b ≤ a ∧ c = a - b := by
  unfold usizeSub
  constructor
  · intro h
    by_cases hb : b ≤ a
    · rw [if_pos hb] at h
      exact ⟨hb, (Option.some.inj h).symm⟩
    · rw [if_neg hb] at h
      cases h
  · intro ⟨h1, h2⟩
    rw [if_pos h1, h2]

theorem foldl_lineColStep_fst_mono (cs : List Char) :
    ∀ acc : Nat × Nat, acc.1 ≤ (List.foldl lineColStep acc cs).1 := by
  induction cs with
  | nil => intro acc; exact Nat.le_refl _
  | cons c rest ih =>
    intro acc
    rw [List.foldl_cons]
    by_cases hc : c = '\n'
    · rw [lineColStep_nl _ _ hc]
      have h2 := ih (acc.1 + 1, 1)
      dsimp only at h2
      omega
    · rw [lineColStep_other _ _ hc]
      exact ih (acc.1, acc.2 + 1)

theorem foldl_lineColStep_fst_eq_no_nl (cs : List Char) :
    ∀ acc : Nat × Nat, (List.foldl lineColStep acc cs).1 = acc.1 → '\n' ∉ cs := by
  induction cs with
  | nil => intro acc _ h; cases h
  | cons c rest ih =>
    intro acc h hmem
    by_cases hc : c = '\n'
    · rw [List.foldl_cons, lineColStep_nl _ _ hc] at h
      have h2 := foldl_lineColStep_fst_mono rest (acc.1 + 1, 1)
      dsimp only at h2
      omega
    · rw [List.foldl_cons, lineColStep_other _ _ hc] at h
      rcases List.mem_cons.mp hmem with he | hmem2
      · exact hc he.symm
      · exact ih _ h hmem2

theorem foldl_lineColStep_no_nl (cs : List Char) :
    ∀ acc : Nat × Nat, '\n' ∉ cs →
      List.foldl lineColStep acc cs = (acc.1, acc.2 + cs.length) := by
  induction cs with
  | nil => intro acc _; rfl
  | cons c rest ih =>
    intro acc h
    rw [List.mem_cons] at h
    push_neg at h
    have hc : ¬ c = '\n' := fun he => h.1 he.symm
    rw [List.foldl_cons, lineColStep_other _ _ hc, ih _ h.2]
    dsimp only
    rw [List.length_cons, Nat.add_assoc, Nat.add_comm 1 rest.length]

theorem foldl_lineColStep_col_pos (cs : List Char) :
    ∀ acc : Nat × Nat, 1 ≤ acc.2 → 1 ≤ (List.foldl lineColStep acc cs).2 := by
  induction cs with
  | nil => intro acc h; exact h
  | cons c rest ih =>
    intro acc h
    rw [List.foldl_cons]
    by_cases hc : c = '\n'
    · rw [lineColStep_nl _ _ hc]
      exact ih _ (Nat.le_refl 1)
    · rw [lineColStep_other _ _ hc]
      exact ih (acc.1, acc.2 + 1) (by dsimp only; omega)

/-- The scan at the byte offset of the n-th character boundary, from the
(1, 1) start. -/
theorem loc_boundary (s : List Char) (n : Nat) (hn : n ≤ s.length) :
    location_to_line_col s (utf8Len (List.take n s)) =
      List.foldl lineColStep (1, 1) (List.take n s) := by
  have h := locLoop_take s n 0 1 1 hn
  rw [Nat.zero_add] at h
  exact h

theorem take_split (s : List Char) (na m : Nat) (hna : na ≤ m) :
    List.take m s = List.take na s ++ (List.take m s).drop na := by
  conv_lhs => rw [← List.take_append_drop na (List.take m s)]
  rw [List.take_take, Nat.min_eq_left hna]

theorem loc_line_pos (s : List Char) (n : Nat) (hn : n ≤ s.length) :
    1 ≤ (location_to_line_col s (utf8Len (List.take n s))).1 := by
  rw [loc_boundary s n hn]
  exact foldl_lineColStep_fst_mono _ (1, 1)

theorem loc_col_pos (s : List Char) (n : Nat) (hn : n ≤ s.length) :
    1 ≤ (location_to_line_col s (utf8Len (List.take n s))).2 := by
  rw [loc_boundary s n hn]
  exact foldl_lineColStep_col_pos _ (1, 1) (Nat.le_refl 1)

theorem loc_split (s : List Char) (na m : Nat) (hna : na ≤ m) (hm : m ≤ s.length) :
    location_to_line_col s (utf8Len (List.take m s)) =
      List.foldl lineColStep (location_to_line_col s (utf8Len (List.take na s)))
        ((List.take m s).drop na) := by
  rw [loc_boundary s m hm, loc_boundary s na (Nat.le_trans hna hm)]
  conv_lhs => rw [take_split s na m hna]
  rw [List.foldl_append]

theorem loc_line_le (s : List Char) (na m : Nat) (hna : na ≤ m) (hm : m ≤ s.length) :
    (location_to_line_col s (utf8Len (List.take na s))).1 ≤
      (location_to_line_col s (utf8Len (List.take m s))).1 := by
  rw [loc_split s na m hna hm]
  exact foldl_lineColStep_fst_mono _ _

/-- On a same-line span between character boundaries na and m, the scan
between them crosses no newline, so the end column exceeds the start column
by exactly the number of characters m - na. -/
theorem loc_same_line (s : List Char) (na m : Nat) (hna : na ≤ m) (hm : m ≤ s.length)
    (hsame : (location_to_line_col s (utf8Len (List.take m s))).1 =
             (location_to_line_col s (utf8Len (List.take na s))).1) :
    location_to_line_col s (utf8Len (List.take m s)) =
      ((location_to_line_col s (utf8Len (List.take na s))).1,
       (location_to_line_col s (utf8Len (List.take na s))).2 + (m - na)) := by
  have hfold := loc_split s na m hna hm
  have hnl : '\n' ∉ (List.take m s).drop na := by
    apply foldl_lineColStep_fst_eq_no_nl _ (location_to_line_col s (utf8Len (List.take na s)))
    rw [← hfold]
    exact hsame
  have hlen : ((List.take m s).drop na).length = m - na := by
    rw [List.length_drop, List.length_take, Nat.min_eq_left hm]
  rw [hfold, foldl_lineColStep_no_nl _ _ hnl, hlen]

theorem take_one_drop {α : Type} (l : List α) (k : Nat) (d : α) (h : k < l.length) :
    (l.drop k).take 1 = [l.getD k d] := by
  rw [List.drop_eq_getElem_cons h, List.take_succ_cons, List.take_zero,
    List.getD_eq_getElem l d h]

theorem renderAll_nil (n sl el sc ec li : Nat) :
    renderAll n sl el sc ec li [] = some [] := rfl

theorem renderAll_cons (n sl el sc ec li : Nat) (line : List Char) (rest : List (List Char)) :
    renderAll n sl el sc ec li (line :: rest) =
      match renderLine n sl el sc ec li line with
      | none => none
      | some block =>
        match renderAll n sl el sc ec (li + 1) rest with
        | none => none
        | some out => some (block ++ out) := rfl

/-- Every block produced by one loop iteration ends up inside the rendering
loop output. -/
theorem renderAll_mem (n sl el sc ec : Nat) (lines : List (List Char)) :
    ∀ (li : Nat) (out : List (List Char)),
      renderAll n sl el sc ec li lines = some out →
      ∀ (i : Nat) (hi : i < lines.length),
        ∃ block, renderLine n sl el sc ec (li + i) (lines.get ⟨i, hi⟩) = some block ∧
          ∀ x ∈ block, x ∈ out := by
  induction lines with
  | nil =>
    intro li out _ i hi
    exact absurd hi (by simp)
  | cons line rest ih =>
    intro li out h i hi
    rw [renderAll_cons] at h
    cases hrl : renderLine n sl el sc ec li line with
    | none => rw [hrl] at h; cases h
    | some block =>
      rw [hrl] at h
      cases hra : renderAll n sl el sc ec (li + 1) rest with
      | none => rw [hra] at h; cases h
      | some out2 =>
        rw [hra] at h
        have hout : block ++ out2 = out := Option.some.inj h
        cases i with
        | zero =>
          refine ⟨block, ?_, ?_⟩
          · rw [Nat.add_zero]
            exact hrl
          · intro x hx
            rw [← hout]
            exact List.mem_append_left _ hx
        | succ j =>
          have hj : j < rest.length := by
            rw [List.length_cons] at hi
            omega
          obtain ⟨block2, hb2, hmem2⟩ := ih (li + 1) out2 hra j hj
          refine ⟨block2, ?_, ?_⟩
          · rw [show li + (j + 1) = li + 1 + j by omega]
            exact hb2
          · intro x hx
            rw [← hout]
            exact List.mem_append_right _ (hmem2 x hx)

theorem usizeSub_self (a : Nat) : usizeSub a a = some 0 := by
  rw [usizeSub_eq_some (Nat.le_refl a), Nat.sub_self]

/-- Rendering of a one-line span, stated on the resolved line/column values:
with the span resolving to line sl0 at columns sc0 and sc0 + k (exclusive),
display prints the header, the location line, the gutter separator, the one
source line, and an underline of sc0 - 1 spaces followed by exactly k carets,
then the context/notes tail. -/
theorem display_generic_same_line (msg fname : List Char) (ctx notes : List (List Char))
    (s : List Char) (a b sl0 sc0 k : Nat)
    (hpa : location_to_line_col s a = (sl0, sc0))
    (hpb : location_to_line_col s b = (sl0, sc0 + k))
    (hk : 1 ≤ k) (hsl0 : 1 ≤ sl0) (hsc0 : 1 ≤ sc0)
    (hpres : sl0 - 1 < (rustLines s).length) :
    ErrorS.display
        { message := msg, filename := fname, code := s,
          span := { start := a, stop := b }, context := ctx, notes := notes }
      = some (["error: ".toList ++ msg,
               locationLine (reprL sl0).length fname sl0 sc0 sl0 (sc0 + k - 1),
               gutterSep (reprL sl0).length,
               textLineOut sl0 0 ((rustLines s).getD (sl0 - 1) []),
               underlineOut (reprL sl0).length (sc0 - 1) k]
              ++ displayTail (reprL sl0).length ctx notes) := by
  have e1 : usizeSub (sc0 + k) 1 = some (sc0 + k - 1) := usizeSub_eq_some (by omega)
  have e2 : usizeSub sl0 1 = some (sl0 - 1) := usizeSub_eq_some hsl0
  have e4 : usizeSub sc0 1 = some (sc0 - 1) := usizeSub_eq_some hsc0
  have e5 : usizeSub (sc0 + k - 1) sc0 = some (k - 1) := by
    rw [usizeSub_eq_some (by omega)]
    congr 1
    omega
  have e6 : k - 1 + 1 = k := by omega
  have hslice : ((rustLines s).drop (sl0 - 1)).take (0 + 1)
      = [(rustLines s).getD (sl0 - 1) []] := by
    rw [Nat.zero_add]
    exact take_one_drop _ _ _ hpres
  have hrl : renderLine (reprL sl0).length sl0 sl0 sc0 (sc0 + k - 1) 0
      ((rustLines s).getD (sl0 - 1) [])
      = some [textLineOut sl0 0 ((rustLines s).getD (sl0 - 1) []),
              underlineOut (reprL sl0).length (sc0 - 1) k] := by
    simp only [renderLine, Nat.add_zero, usizeSub_self, e4, e5, e6, and_self, if_true]
  simp only [ErrorS.display, hpa, hpb, Nat.max_self, e1, e2, usizeSub_self, hslice,
    renderAll_cons, hrl, renderAll_nil, List.append_nil, List.cons_append, List.nil_append]

/-- Rendering of a crossing span, stated on the resolved line/column values:
whenever display succeeds and both touched boundary lines exist, the output
contains a first-line underline running from the start column to the end of
that line and a last-line underline of end-column-plus-one carets from the
margin; success of the first-line subtraction also bounds the start column by
the first line's length. -/
theorem display_generic_crossing (msg fname : List Char) (ctx notes : List (List Char))
    (s : List Char) (a b sl0 sc0 el0 ec0 : Nat) (L : List (List Char))
    (hpa : location_to_line_col s a = (sl0, sc0))
    (hpb : location_to_line_col s b = (el0, ec0))
    (hlt : sl0 < el0) (hsl0 : 1 ≤ sl0) (hsc0 : 1 ≤ sc0)
    (hlast : el0 - 1 < (rustLines s).length)
    (hdisp : ErrorS.display
        { message := msg, filename := fname, code := s,
          span := { start := a, stop := b }, context := ctx, notes := notes } = some L) :
    (sc0 ≤ utf8Len ((rustLines s).getD (sl0 - 1) []) ∧
     underlineOut (reprL (max sl0 el0)).length (sc0 - 1)
       (utf8Len ((rustLines s).getD (sl0 - 1) []) - sc0 + 1) ∈ L) ∧
    marginUnderlineOut (reprL (max sl0 el0)).length (ec0 - 1 + 1) ∈ L := by
  have e4 : usizeSub sc0 1 = some (sc0 - 1) := usizeSub_eq_some hsc0
  have hne : ¬ sl0 = el0 := by omega
  have hne2 : ¬ el0 = sl0 := by omega
  simp only [ErrorS.display, hpa, hpb] at hdisp
  by_cases hec0 : 1 ≤ ec0
  case neg =>
    have h0 : usizeSub ec0 1 = none := by
      unfold usizeSub
      rw [if_neg (by omega)]
    rw [h0] at hdisp
    cases hdisp
  case pos =>
  have e1 : usizeSub ec0 1 = some (ec0 - 1) := usizeSub_eq_some hec0
  have e2 : usizeSub sl0 1 = some (sl0 - 1) := usizeSub_eq_some hsl0
  have e3 : usizeSub el0 sl0 = some (el0 - sl0) := usizeSub_eq_some (Nat.le_of_lt hlt)
  simp only [e1, e2, e3] at hdisp
  cases hra : renderAll (reprL (max sl0 el0)).length sl0 el0 sc0 (ec0 - 1) 0
      (List.take (el0 - sl0 + 1) (List.drop (sl0 - 1) (rustLines s))) with
  | none =>
    rw [hra] at hdisp
    cases hdisp
  | some body =>
    rw [hra] at hdisp
    have hL := Option.some.inj hdisp
    have hlen : (List.take (el0 - sl0 + 1) (List.drop (sl0 - 1) (rustLines s))).length
        = el0 - sl0 + 1 := by
      rw [List.length_take, List.length_drop]
      omega
    -- the first touched line
    have hi0 : 0 < (List.take (el0 - sl0 + 1) (List.drop (sl0 - 1) (rustLines s))).length := by
      omega
    obtain ⟨block0, hrl0, hmem0⟩ := renderAll_mem _ _ _ _ _ _ 0 body hra 0 hi0
    have hget0 : (List.take (el0 - sl0 + 1) (List.drop (sl0 - 1) (rustLines s))).get ⟨0, hi0⟩
        = (rustLines s).getD (sl0 - 1) [] := by
      rw [List.get_eq_getElem, List.getElem_take, List.getElem_drop]
      simp only [Nat.add_zero]
      rw [List.getD_eq_getElem (rustLines s) [] (by omega)]
    rw [hget0] at hrl0
    simp only [renderLine, Nat.add_zero, hne, eq_self_iff_true, true_and, and_false,
      if_false, if_true, e4] at hrl0
    cases hpad : usizeSub (reprL (max sl0 el0)).length (reprL sl0).length with
    | none =>
      rw [hpad] at hrl0
      cases hrl0
    | some pad =>
      simp only [hpad] at hrl0
      cases huf : usizeSub (utf8Len ((rustLines s).getD (sl0 - 1) [])) sc0 with
      | none =>
        rw [huf] at hrl0
        cases hrl0
      | some d =>
        simp only [huf] at hrl0
        obtain ⟨hle, hd⟩ := usizeSub_eq_some_iff.mp huf
        subst hd
        have hb0 := (Option.some.inj hrl0).symm
        refine ⟨⟨hle, ?_⟩, ?_⟩
        · rw [← hL]
          refine List.mem_cons_of_mem _ (List.mem_cons_of_mem _ (List.mem_cons_of_mem _
            (List.mem_append_left _ (hmem0 _ ?_))))
          rw [hb0]
          exact List.mem_cons_of_mem _ (List.mem_cons_self _ _)
        -- the last touched line
        · have hiL : el0 - sl0 < (List.take (el0 - sl0 + 1)
              (List.drop (sl0 - 1) (rustLines s))).length := by
            omega
          obtain ⟨blockL, hrlL, hmemL⟩ := renderAll_mem _ _ _ _ _ _ 0 body hra (el0 - sl0) hiL
          have hidx : sl0 - 1 + (el0 - sl0) = el0 - 1 := by omega
          have hgetL : (List.take (el0 - sl0 + 1)
              (List.drop (sl0 - 1) (rustLines s))).get ⟨el0 - sl0, hiL⟩
              = (rustLines s).getD (el0 - 1) [] := by
            rw [List.get_eq_getElem, List.getElem_take, List.getElem_drop]
            simp only [hidx]
            rw [List.getD_eq_getElem (rustLines s) [] (by omega)]
          rw [hgetL] at hrlL
          have hlnum : sl0 + (0 + (el0 - sl0)) = el0 := by omega
          simp only [renderLine, hlnum, hne2, eq_self_iff_true, false_and, and_false,
            if_false, if_true] at hrlL
          cases hpadL : usizeSub (reprL (max sl0 el0)).length (reprL el0).length with
          | none =>
            rw [hpadL] at hrlL
            cases hrlL
          | some padL =>
            simp only [hpadL] at hrlL
            have hbL := (Option.some.inj hrlL).symm
            rw [← hL]
            refine List.mem_cons_of_mem _ (List.mem_cons_of_mem _ (List.mem_cons_of_mem _
              (List.mem_append_left _ (hmemL _ ?_))))
            rw [hbL]
            exact List.mem_cons_of_mem _ (List.mem_cons_self _ _)

/-- C8 (amended): for a valid span with boundary endpoints whose start and end
resolve to the same source line, display prints beneath that line an underline
of spaces up to the start column followed by exactly endCol - startCol + 1
carets, and that count equals the number of characters the span covers.  For
a span crossing lines, whenever display succeeds (no underflow) and the end
line exists among the source's lines, the output contains a first-line
underline from the start column to the end of that line's length and a
last-line underline of endCol + 1 carets from the margin; a span starting at
a newline character or ending just past a terminal newline escapes this
contract (see the counterexample). -/
theorem runic_c8 :
    (∀ (msg fname : List Char) (ctx notes : List (List Char)) (s : List Char)
       (na m sl sc ec n : Nat),
       na < m → m ≤ s.length →
       (location_to_line_col s (utf8Len (List.take m s))).1 =
         (location_to_line_col s (utf8Len (List.take na s))).1 →
       sl = (location_to_line_col s (utf8Len (List.take na s))).1 →
       sc = (location_to_line_col s (utf8Len (List.take na s))).2 →
       ec = (location_to_line_col s (utf8Len (List.take m s))).2 - 1 →
       n = (reprL sl).length →
       sl - 1 < (rustLines s).length →
       ErrorS.display
           { message := msg, filename := fname, code := s,
             span := { start := utf8Len (List.take na s), stop := utf8Len (List.take m s) },
             context := ctx, notes := notes }
         = some (["error: ".toList ++ msg,
                  locationLine n fname sl sc sl ec,
                  gutterSep n,
                  textLineOut sl 0 ((rustLines s).getD (sl - 1) []),
                  underlineOut n (sc - 1) (ec - sc + 1)]
                 ++ displayTail n ctx notes) ∧
       ec - sc + 1 = m - na) ∧
    (∀ (msg fname : List Char) (ctx notes : List (List Char)) (s : List Char)
       (na m sl sc el ec n : Nat) (L : List (List Char)),
       na < m → m ≤ s.length →
       sl = (location_to_line_col s (utf8Len (List.take na s))).1 →
       sc = (location_to_line_col s (utf8Len (List.take na s))).2 →
       el = (location_to_line_col s (utf8Len (List.take m s))).1 →
       ec = (location_to_line_col s (utf8Len (List.take m s))).2 - 1 →
       n = (reprL (max sl el)).length →
       ¬ sl = el →
       el - 1 < (rustLines s).length →
       ErrorS.display
           { message := msg, filename := fname, code := s,
             span := { start := utf8Len (List.take na s), stop := utf8Len (List.take m s) },
             context := ctx, notes := notes }
         = some L →
       (sc ≤ utf8Len ((rustLines s).getD (sl - 1) []) ∧
        underlineOut n (sc - 1) (utf8Len ((rustLines s).getD (sl - 1) []) - sc + 1) ∈ L) ∧
       marginUnderlineOut n (ec + 1) ∈ L) := by
  constructor
  · intro msg fname ctx notes s na m sl sc ec n hnam hm hsame hsl hsc hec hn hpres
    have hnale : na ≤ m := Nat.le_of_lt hnam
    have hQ := loc_same_line s na m hnale hm hsame
    have hslpos := loc_line_pos s na (Nat.le_trans hnale hm)
    have hscpos := loc_col_pos s na (Nat.le_trans hnale hm)
    have hk : 1 ≤ m - na := by omega
    rw [hQ] at hec
    dsimp only at hec
    subst hsl
    subst hsc
    subst hec
    subst hn
    refine ⟨?_, by omega⟩
    have harith : (location_to_line_col s (utf8Len (List.take na s))).2 + (m - na) - 1
        - (location_to_line_col s (utf8Len (List.take na s))).2 + 1 = m - na := by
      omega
    rw [harith]
    exact display_generic_same_line msg fname ctx notes s
      (utf8Len (List.take na s)) (utf8Len (List.take m s))
      (location_to_line_col s (utf8Len (List.take na s))).1
      (location_to_line_col s (utf8Len (List.take na s))).2
      (m - na) rfl hQ hk hslpos hscpos hpres
  · intro msg fname ctx notes s na m sl sc el ec n L hnam hm hsl hsc hel hec hn hneq hlast hdisp
    have hnale : na ≤ m := Nat.le_of_lt hnam
    have hslle := loc_line_le s na m hnale hm
    have hslpos := loc_line_pos s na (Nat.le_trans hnale hm)
    have hscpos := loc_col_pos s na (Nat.le_trans hnale hm)
    subst hsl
    subst hsc
    subst hel
    subst hec
    subst hn
    have hlt : (location_to_line_col s (utf8Len (List.take na s))).1 <
        (location_to_line_col s (utf8Len (List.take m s))).1 := by
      omega
    exact display_generic_crossing msg fname ctx notes s
      (utf8Len (List.take na s)) (utf8Len (List.take m s))
      (location_to_line_col s (utf8Len (List.take na s))).1
      (location_to_line_col s (utf8Len (List.take na s))).2
      (location_to_line_col s (utf8Len (List.take m s))).1
      (location_to_line_col s (utf8Len (List.take m s))).2
      L rfl rfl hlt hslpos hscpos hlast hdisp

/-- C8 counterexample: the valid span 0..6 on the source "ab, newline, cd,
newline" crosses from line 1 to line 3 (the end offset sits just past the
terminal newline), and endCol resolves to 0, so the claim requires a
last-line underline of one caret from the margin; the rendered output
contains no such line, because str::lines produces no third line. -/
theorem runic_c8_counterexample :
    (ErrorS.display
        { message := "m".toList, filename := "f".toList,
          code := "ab\ncd\n".toList, span := { start := 0, stop := 6 },
          context := [], notes := [] }
      = some ["error: m".toList, " --> f:1:1-3:0".toList, "  |".toList,
              "1 | ab".toList, "  | ^^".toList, "2 | cd".toList, "  | ^^".toList]) ∧
    (location_to_line_col "ab\ncd\n".toList 0).1 = 1 ∧
    (location_to_line_col "ab\ncd\n".toList 6).1 = 3 ∧
    (location_to_line_col "ab\ncd\n".toList 6).2 - 1 + 1 = 1 ∧
    marginUnderlineOut 1 1 ∉
      ["error: m".toList, " --> f:1:1-3:0".toList, "  |".toList,
       "1 | ab".toList, "  | ^^".toList, "2 | cd".toList, "  | ^^".toList] := by
  refine ⟨by decide, by decide, by decide, by decide, by decide⟩

/-- Witness for C8: the single-line span 0..2 and the crossing span 0..4 on
the source "ab newline cd", with all hypotheses discharged on the concrete
values. -/
theorem runic_c8_witness :
    (ErrorS.display
         { message := "m".toList, filename := "f".toList, code := "ab\ncd".toList,
           span := { start := utf8Len (List.take 0 "ab\ncd".toList),
                     stop := utf8Len (List.take 2 "ab\ncd".toList) },
           context := [], notes := [] }
       = some (["error: ".toList ++ "m".toList,
                locationLine 1 "f".toList 1 1 1 2,
                gutterSep 1,
                textLineOut 1 0 ((rustLines "ab\ncd".toList).getD (1 - 1) []),
                underlineOut 1 (1 - 1) (2 - 1 + 1)]
               ++ displayTail 1 [] []) ∧
     (2 : Nat) - 1 + 1 = 2 - 0) ∧
    ((1 ≤ utf8Len ((rustLines "ab\ncd".toList).getD (1 - 1) []) ∧
      underlineOut 1 (1 - 1) (utf8Len ((rustLines "ab\ncd".toList).getD (1 - 1) []) - 1 + 1) ∈
        ["error: m".toList, " --> f:1:1-2:1".toList, "  |".toList,
         "1 | ab".toList, "  | ^^".toList, "2 | cd".toList, "  | ^^".toList]) ∧
     marginUnderlineOut 1 (1 + 1) ∈
       ["error: m".toList, " --> f:1:1-2:1".toList, "  |".toList,
        "1 | ab".toList, "  | ^^".toList, "2 | cd".toList, "  | ^^".toList]) :=
  ⟨runic_c8.1 "m".toList "f".toList [] [] "ab\ncd".toList 0 2 1 1 2 1
     (by decide) (by decide) (by decide) (by decide) (by decide) (by decide) (by decide)
     (by decide),
   runic_c8.2 "m".toList "f".toList [] [] "ab\ncd".toList 0 4 1 1 2 1 1
     ["error: m".toList, " --> f:1:1-2:1".toList, "  |".toList,
      "1 | ab".toList, "  | ^^".toList, "2 | cd".toList, "  | ^^".toList]
     (by decide) (by decide) (by decide) (by decide) (by decide) (by decide) (by decide)
     (by decide) (by decide) (by decide)⟩

end Runic
